import Mathlib

/-
  Verification development for the csjsound-wasapi native audio core
  (src/lib.rs, src/formats.rs, src/wasapi_impl.rs).

  The Rust functions relevant to the claims are shallowly embedded as pure
  Lean functions.  Byte buffers are `List Nat` (one entry per byte); the
  `leftovers` scratch buffer of a stream is represented by its valid prefix
  (the first `leftovers_pos` bytes), since the bytes beyond `leftovers_pos`
  are never read by the code.  Chunk sequence numbers are `u64` in the
  source; they start at 0 and grow by at most 1 per captured chunk, so in
  any finite execution they stay far below 2^64 and are embedded as `Nat`.
-/

/-- Direction of a WASAPI endpoint (`wasapi::Direction`). -/
inductive Direction where
  | render : Direction
  | capture : Direction
deriving DecidableEq, Repr

/-! ## Playback outer side: `do_write` (src/src/wasapi_impl.rs lines 564-634) -/

/-- The `while data_to_write.len() >= chunk_bytes` loop of `do_write`
(lines 610-625): repeatedly cut one chunk of exactly `chunkBytes` bytes off
the front of the remaining data and enqueue it.  Returns the list of
enqueued chunks (in queue order) and the remaining tail (which lines
626-632 store into `leftovers`).  The source loop runs with
`chunk_bytes > 0` (chunk_frames and frame_bytes are positive); the
`0 < chunkBytes` conjunct makes the recursion total in Lean. -/
def sendFullChunks (chunkBytes : Nat) (data : List Nat) :
    List (List Nat) × List Nat :=
  if _h : 0 < chunkBytes ∧ chunkBytes ≤ data.length then
    let rest := sendFullChunks chunkBytes (data.drop chunkBytes)
    (data.take chunkBytes :: rest.1, rest.2)
  else
    ([], data)
termination_by data.length
decreasing_by
  simp only [List.length_drop]
  omega

/-- Result of one `do_write` call: the chunks enqueued on the playback
queue (in order), the new valid prefix of `leftovers`, and the returned
byte count (`Ok(data_len)`). -/
structure WriteResult where
  sent : List (List Nat)
  leftovers : List Nat
  ret : Nat
deriving DecidableEq, Repr

/-- `do_write` (lines 564-634), for a playback stream whose queue send
succeeds (the send only fails when the channel is closed).  `lo` is the
valid prefix of `rtd.leftovers` (`lo.length = leftovers_pos`), `data` is
`java_buffer[offset..offset+data_len]`. -/
def do_write (chunkBytes : Nat) (lo : List Nat) (data : List Nat) :
    WriteResult :=
  if lo.length + data.length < chunkBytes then
    -- lines 576-584: append everything to leftovers
    { sent := [], leftovers := lo ++ data, ret := data.length }
  else if 0 < lo.length then
    -- lines 587-607: first chunk = leftovers ++ head of data
    let firstChunk := lo ++ data.take (chunkBytes - lo.length)
    let rest := sendFullChunks chunkBytes (data.drop (chunkBytes - lo.length))
    { sent := firstChunk :: rest.1, leftovers := rest.2, ret := data.length }
  else
    let rest := sendFullChunks chunkBytes data
    { sent := rest.1, leftovers := rest.2, ret := data.length }

/-! ### Properties of `sendFullChunks` -/

theorem sendFullChunks_unfold (chunkBytes : Nat) (data : List Nat) :
    sendFullChunks chunkBytes data =
      if 0 < chunkBytes ∧ chunkBytes ≤ data.length then
        (data.take chunkBytes ::
            (sendFullChunks chunkBytes (data.drop chunkBytes)).1,
          (sendFullChunks chunkBytes (data.drop chunkBytes)).2)
      else ([], data) := by
  rw [sendFullChunks]
  split <;> simp

/-- Combined specification of the chunking loop, proved by bounded
induction on the data length. -/
theorem sendFullChunks_spec_aux (chunkBytes : Nat) (hcb : 0 < chunkBytes)
    (n : Nat) :
    ∀ data : List Nat, data.length ≤ n →
      (sendFullChunks chunkBytes data).1.length = data.length / chunkBytes ∧
      (∀ c ∈ (sendFullChunks chunkBytes data).1, c.length = chunkBytes) ∧
      (sendFullChunks chunkBytes data).2.length = data.length % chunkBytes ∧
      (sendFullChunks chunkBytes data).1.flatten ++
          (sendFullChunks chunkBytes data).2 = data := by
  induction n with
  | zero =>
    intro data hlen
    have hd : data = [] := List.eq_nil_of_length_eq_zero (Nat.le_zero.mp hlen)
    subst hd
    rw [sendFullChunks_unfold]
    have hneg : ¬ (0 < chunkBytes ∧ chunkBytes ≤ ([] : List Nat).length) := by
      simp only [List.length_nil]
      omega
    rw [if_neg hneg]
    simp
  | succ n ih =>
    intro data hlen
    rw [sendFullChunks_unfold]
    by_cases h : 0 < chunkBytes ∧ chunkBytes ≤ data.length
    · rw [if_pos h]
      have hdrop : (data.drop chunkBytes).length ≤ n := by
        simp only [List.length_drop]
        omega
      obtain ⟨ihl, ihc, ihm, ihj⟩ := ih (data.drop chunkBytes) hdrop
      refine ⟨?_, ?_, ?_, ?_⟩
      · simp only [List.length_cons, ihl, List.length_drop]
        rw [Nat.div_eq_sub_div hcb h.2]
      · intro c hc
        rcases List.mem_cons.mp hc with hc | hc
        · subst hc
          simp [List.length_take]
          omega
        · exact ihc c hc
      · simp only [ihm, List.length_drop]
        rw [Nat.mod_eq_sub_mod h.2]
      · simp only [List.flatten_cons, List.append_assoc, ihj]
        exact List.take_append_drop chunkBytes data
    · rw [if_neg h]
      have hlt : data.length < chunkBytes := by omega
      refine ⟨?_, ?_, ?_, ?_⟩
      · simp [Nat.div_eq_of_lt hlt]
      · simp
      · simp [Nat.mod_eq_of_lt hlt]
      · simp

theorem sendFullChunks_spec (chunkBytes : Nat) (hcb : 0 < chunkBytes)
    (data : List Nat) :
    (sendFullChunks chunkBytes data).1.length = data.length / chunkBytes ∧
    (∀ c ∈ (sendFullChunks chunkBytes data).1, c.length = chunkBytes) ∧
    (sendFullChunks chunkBytes data).2.length = data.length % chunkBytes ∧
    (sendFullChunks chunkBytes data).1.flatten ++
        (sendFullChunks chunkBytes data).2 = data :=
  sendFullChunks_spec_aux chunkBytes hcb data.length data le_rfl

/-! ## Capture outer side: `do_read` (src/src/wasapi_impl.rs lines 636-722)

The capture queue is a list of `(chunk_nbr, data)` pairs, head = oldest.
A blocking `recv` on an empty queue (no producer modelled) is represented
by `none`; the code would block there, and on a closed channel return an
error. -/

/-- Result of one `do_read` call: the bytes copied into the host buffer
(`out_buffer[offset..offset+data_len]`), the new valid prefix of
`leftovers`, the stored `capt_last_chunk_nbr` and `capt_flushed_cnt`, the
chunks still pending on the queue, the number of warn-logged sample-drop
events (line 678), and the returned count (`Ok(data_len)`). -/
structure ReadResult where
  out : List Nat
  leftovers : List Nat
  lastChunkNbr : Nat
  flushedCnt : Nat
  queue : List (Nat × List Nat)
  drops : Nat
  ret : Nat
deriving DecidableEq, Repr

/-- The `while read_len < data_len` loop of `do_read` (lines 668-715):
receive `(chunk_nbr, data)` pairs, maintain the expected chunk number, and
copy bytes into the output, parking any excess of the last chunk in
`leftovers`.  `out` accumulates the bytes written to the output buffer
(`read_len = out.length`). -/
def readLoop (dataLen : Nat) (queue : List (Nat × List Nat))
    (out lo : List Nat) (expected flushed drops : Nat) : Option ReadResult :=
  if out.length < dataLen then
    match queue with
    | [] => none
    | (nbr, data) :: rest =>
      -- lines 674-680: expected grows by 1 new chunk + chunks flushed in
      -- the meantime, `capt_flushed_cnt` is reset, and a larger received
      -- `chunk_nbr` fast-forwards `expected` (logging a sample drop);
      -- `dataLen - out.length` is `available_space_bytes` (line 688)
      if data.length ≤ dataLen - out.length then
        -- lines 689-693: whole chunk fits into the output buffer
        readLoop dataLen rest (out ++ data) lo
          (if expected + 1 + flushed < nbr then nbr
            else expected + 1 + flushed)
          0
          (if expected + 1 + flushed < nbr then drops + 1 else drops)
      else
        -- lines 694-705: copy what fits, rest goes to leftovers
        readLoop dataLen rest (out ++ data.take (dataLen - out.length))
          (data.drop (dataLen - out.length))
          (if expected + 1 + flushed < nbr then nbr
            else expected + 1 + flushed)
          0
          (if expected + 1 + flushed < nbr then drops + 1 else drops)
  else
    some { out := out, leftovers := lo, lastChunkNbr := expected,
           flushedCnt := flushed, queue := queue, drops := drops,
           ret := dataLen }

/-- `do_read` (lines 636-722).  `lo` is the valid prefix of
`rtd.leftovers`, `lastNbr = rtd.capt_last_chunk_nbr`,
`flushed = rtd.capt_flushed_cnt`, `queue` the pending capture chunks. -/
def do_read (dataLen : Nat) (lo : List Nat) (lastNbr flushed : Nat)
    (queue : List (Nat × List Nat)) : Option ReadResult :=
  if 0 < lo.length then
    if lo.length ≤ dataLen then
      -- lines 646-652: whole leftovers copied to the output, position cleared
      readLoop dataLen queue lo [] lastNbr flushed 0
    else
      -- lines 653-664: only data_len leftover bytes copied, rest shifted down
      readLoop dataLen queue (lo.take dataLen) (lo.drop dataLen) lastNbr
        flushed 0
  else
    readLoop dataLen queue [] lo lastNbr flushed 0

/-! ## Capture inner side: the send step of `capture_loop`
(src/src/wasapi_impl.rs lines 1264-1279) -/

/-- Inner-loop state relevant to the send step: the next chunk sequence
number and the optional buffer saved after a failed (Full) send. -/
structure CaptInnerState where
  chunkNbr : Nat
  savedBuffer : Option (List Nat)
deriving DecidableEq, Repr

/-- The non-blocking send of `(chunk_nbr, data)` at the end of each
`capture_loop` iteration (lines 1264-1279), followed by the unconditional
`chunk_nbr += 1` on line 1279.  `cap` is the bounded queue capacity and
`connected` whether the outer endpoint still exists: `try_send` returns
`Full` when the queue holds `cap` items, `Disconnected` when the receiver
is gone (the loop then stops the stream and returns an error, modelled as
`none`). -/
def captureSendChunk (cap : Nat) (connected : Bool)
    (queue : List (Nat × List Nat)) (st : CaptInnerState)
    (data : List Nat) : Option (List (Nat × List Nat) × CaptInnerState) :=
  if !connected then
    none
  else if queue.length < cap then
    -- Ok: chunk enqueued, nothing saved
    some (queue ++ [(st.chunkNbr, data)],
      { chunkNbr := st.chunkNbr + 1, savedBuffer := none })
  else
    -- Full (lines 1269-1272): the captured chunk is stashed into
    -- saved_buffer (to be reused -- and overwritten -- as the read target
    -- of the next iteration, lines 1197-1201); line 1279 still increments
    -- chunk_nbr.
    some (queue,
      { chunkNbr := st.chunkNbr + 1, savedBuffer := some data })

/-! ## `DeviceTimeTracker` (src/src/wasapi_impl.rs lines 102-160)

The source uses `f64` times; only comparisons and exact sums/differences of
the inputs are performed, so the embedding uses exact rational arithmetic
(`0.5 * frame_time` becomes `frame_time / 2`). -/

/-- The two mutable fields of `DeviceTimeTracker` (the `log_prefix` field
only feeds log messages and is omitted). -/
structure DeviceTimeTracker where
  prev_dev_time : Option ℚ
  accumulated_frame_time : ℚ
deriving DecidableEq, Repr

/-- `DeviceTimeTracker::event_missing` (lines 122-159): returns the updated
tracker and the boolean result. -/
def event_missing (st : DeviceTimeTracker) (dev_time frame_time : ℚ) :
    DeviceTimeTracker × Bool :=
  if dev_time = 0 then
    -- lines 123-133: invalid clock value, keep prev_dev_time
    match st.prev_dev_time with
    | some _ =>
      ({ st with accumulated_frame_time :=
          st.accumulated_frame_time + frame_time }, false)
    | none => (st, false)
  else
    match st.prev_dev_time with
    | some prev =>
      let elapsed_dev_time := dev_time - prev
      let elapsed_frame_time := st.accumulated_frame_time + frame_time
      if 0 < elapsed_frame_time ∧
          elapsed_frame_time + frame_time / 2 < elapsed_dev_time then
        -- lines 144-150: missed event, reset and return true
        ({ prev_dev_time := none, accumulated_frame_time := 0 }, true)
      else
        ({ prev_dev_time := some dev_time, accumulated_frame_time := 0 },
          false)
    | none =>
      ({ prev_dev_time := some dev_time, accumulated_frame_time := 0 },
        false)

/-! ## Format catalog (src/src/formats.rs) -/

/-- `formats.rs` `Format` (lines 6-12); fields are `i32` in the source
(`NOT_SPECIFIED = -1` sentinels occur), hence `Int`. -/
structure Format where
  validbits : Int
  frame_bytes : Int
  channels : Int
  rate : Int
deriving DecidableEq, Repr

/-- A probed wave-format candidate: the fields of the WASAPI descriptor
that `get_possible_formats` (formats.rs lines 103-141) controls.
`extensible = false` is the legacy WAVEFORMATEX layout, which carries no
channel mask. -/
structure WvCandidate where
  storebits : Nat
  validbits : Nat
  rate : Nat
  channels : Nat
  channelMask : Nat
  extensible : Bool
deriving DecidableEq, Repr

/-- The speaker-position bit constants (formats.rs lines 30-47). -/
def SPEAKER_FRONT_LEFT : Nat := 0x1
def SPEAKER_FRONT_RIGHT : Nat := 0x2
def SPEAKER_FRONT_CENTER : Nat := 0x4
def SPEAKER_LOW_FREQUENCY : Nat := 0x8
def SPEAKER_BACK_LEFT : Nat := 0x10
def SPEAKER_BACK_RIGHT : Nat := 0x20
def SPEAKER_FRONT_LEFT_OF_CENTER : Nat := 0x40
def SPEAKER_FRONT_RIGHT_OF_CENTER : Nat := 0x80
def SPEAKER_BACK_CENTER : Nat := 0x100
def SPEAKER_SIDE_LEFT : Nat := 0x200
def SPEAKER_SIDE_RIGHT : Nat := 0x400

/-- Composite masks (formats.rs lines 50-68). -/
def SPEAKER_STEREO : Nat := SPEAKER_FRONT_LEFT ||| SPEAKER_FRONT_RIGHT
def SPEAKER_QUAD : Nat := SPEAKER_FRONT_LEFT ||| SPEAKER_FRONT_RIGHT |||
  SPEAKER_BACK_LEFT ||| SPEAKER_BACK_RIGHT
def SPEAKER_SURROUND : Nat := SPEAKER_FRONT_LEFT ||| SPEAKER_FRONT_RIGHT |||
  SPEAKER_FRONT_CENTER ||| SPEAKER_BACK_CENTER
def SPEAKER_5POINT1 : Nat := SPEAKER_FRONT_LEFT ||| SPEAKER_FRONT_RIGHT |||
  SPEAKER_FRONT_CENTER ||| SPEAKER_LOW_FREQUENCY |||
  SPEAKER_BACK_LEFT ||| SPEAKER_BACK_RIGHT
def SPEAKER_7POINT1 : Nat := SPEAKER_FRONT_LEFT ||| SPEAKER_FRONT_RIGHT |||
  SPEAKER_FRONT_CENTER ||| SPEAKER_LOW_FREQUENCY |||
  SPEAKER_BACK_LEFT ||| SPEAKER_BACK_RIGHT |||
  SPEAKER_FRONT_LEFT_OF_CENTER ||| SPEAKER_FRONT_RIGHT_OF_CENTER
def SPEAKER_5POINT1_SURROUND : Nat := SPEAKER_FRONT_LEFT |||
  SPEAKER_FRONT_RIGHT ||| SPEAKER_FRONT_CENTER ||| SPEAKER_LOW_FREQUENCY |||
  SPEAKER_SIDE_LEFT ||| SPEAKER_SIDE_RIGHT
def SPEAKER_7POINT1_SURROUND : Nat := SPEAKER_FRONT_LEFT |||
  SPEAKER_FRONT_RIGHT ||| SPEAKER_FRONT_CENTER ||| SPEAKER_LOW_FREQUENCY |||
  SPEAKER_BACK_LEFT ||| SPEAKER_BACK_RIGHT |||
  SPEAKER_SIDE_LEFT ||| SPEAKER_SIDE_RIGHT

/-- `CHANNEL_MASKS` (formats.rs lines 70-79): row `channels - 1` holds the
PortAudio-style masks tried first for that channel count. -/
def CHANNEL_MASKS : List (List Nat) := [
  [SPEAKER_FRONT_CENTER],
  [SPEAKER_STEREO],
  [SPEAKER_STEREO ||| SPEAKER_LOW_FREQUENCY],
  [SPEAKER_QUAD, SPEAKER_SURROUND],
  [SPEAKER_QUAD ||| SPEAKER_LOW_FREQUENCY,
    SPEAKER_SURROUND ||| SPEAKER_LOW_FREQUENCY],
  [SPEAKER_5POINT1, SPEAKER_5POINT1_SURROUND],
  [SPEAKER_5POINT1 ||| SPEAKER_BACK_CENTER,
    SPEAKER_5POINT1_SURROUND ||| SPEAKER_BACK_CENTER],
  [SPEAKER_7POINT1, SPEAKER_7POINT1_SURROUND]]

/-- `get_possible_formats` (formats.rs lines 103-141).  `defaultMask` is
the channel mask that `wasapi::WaveFormat::new(..., None)` fills in (the
wasapi-rs library default, computed outside this repository); it is kept
abstract as a parameter.  The source indexes `CHANNEL_MASKS[channels - 1]`
under the guard `channels <= CHANNEL_MASKS.len()` alone; for
`channels = 0` the subtraction underflows and the source panics, so the
embedding adds `1 ≤ channels` to the guard (all claims quantify over
`channels ≥ 1`). -/
def get_possible_formats (defaultMask : Nat)
    (storebits validbits rate channels : Nat) : List WvCandidate :=
  let wvformat : WvCandidate :=
    { storebits := storebits, validbits := validbits, rate := rate,
      channels := channels, channelMask := defaultMask, extensible := true }
  (if 1 ≤ channels ∧ channels ≤ CHANNEL_MASKS.length then
    (CHANNEL_MASKS.getD (channels - 1) []).map
      (fun mask => { wvformat with channelMask := mask })
  else []) ++
  (if 2 < channels then [wvformat] else []) ++
  [{ wvformat with channelMask := 0 }] ++
  (if channels ≤ 2 ∧ storebits ≤ 16 then
    [{ wvformat with extensible := false }]
  else [])

/-- The fixed `(validbits, storebits)` list of `init_format_variants`
(formats.rs line 83). -/
def valid_store_bits_variants : List (Nat × Nat) :=
  [(16, 16), (24, 24), (24, 32), (32, 32)]

/-- `init_format_variants` (formats.rs lines 81-101), modelled as the list
of catalog entries inserted into `WV_FMTS_BY_FORMAT`, in insertion
order. -/
def init_format_variants (defaultMask : Nat)
    (rate_variants channels_variants : List Nat)
    (accepted_combination : Nat → Nat → Bool) :
    List (Format × List WvCandidate) :=
  rate_variants.flatMap (fun rate =>
    channels_variants.flatMap (fun channels =>
      if accepted_combination rate channels then
        valid_store_bits_variants.map (fun vs =>
          ({ validbits := (vs.1 : Int),
             frame_bytes := ((channels * vs.2 / 8 : Nat) : Int),
             channels := (channels : Int), rate := (rate : Int) },
            get_possible_formats defaultMask vs.2 vs.1 rate channels))
      else []))

/-- The `accepted_combination` predicate built in `nInit`
(src/src/lib.rs lines 133-141); the limits are `jint` (`i32`). -/
def accepted_combination (maxRatesLimit maxChannelsLimit : Int)
    (rate channels : Nat) : Bool :=
  if 0 < maxChannelsLimit ∧ 0 < maxRatesLimit then
    rate ≤ maxRatesLimit.toNat || channels ≤ maxChannelsLimit.toNat
  else
    true

/-! ## Format prober (src/src/wasapi_impl.rs lines 230-234) -/

/-- `do_get_formats` (lines 230-234).  The device directory lookup is
abstracted: `lookup` is `none` when `get_device_by_id` fails (parse error
or index out of range) and `some dev_dir` otherwise; `deviceFormats` is
what `get_device_formats` would return for the device.  The function
returns `none` on error (`Res::Err`) and `some fmts` on `Ok(fmts)`. -/
def do_get_formats (lookup : Option Direction) (dir : Direction)
    (deviceFormats : List Format) : Option (List Format) :=
  match lookup with
  | none => none
  | some dev_dir => some (if dir = dev_dir then deviceFormats else [])

/-! ## Position reporting (src/src/wasapi_impl.rs lines 742-758) -/

/-- `do_get_byte_pos` (lines 742-758).  All arithmetic is on 64-bit
unsigned machine integers (`usize`/`u64` on a 64-bit target), embedded as
`Nat` reduced modulo `2^64`; the render branch is `u64` wrapping
subtraction.  `queueLen` is the pending chunk count of the direction's
queue; `none` models the `check_direction_from_rt` error. -/
def do_get_byte_pos (rtdDir dir : Direction)
    (queueLen chunkFrames frameBytes leftoversPos javaBytePos : Nat) :
    Option Nat :=
  if rtdDir ≠ dir then
    none
  else if dir = Direction.render then
    some ((javaBytePos % 2 ^ 64 +
      (2 ^ 64 -
        (queueLen * chunkFrames * frameBytes + leftoversPos) % 2 ^ 64)) %
      2 ^ 64)
  else
    some ((javaBytePos % 2 ^ 64 +
      (queueLen * chunkFrames * frameBytes + leftoversPos) % 2 ^ 64) %
      2 ^ 64)

/-! ## Claim theorems -/

/-- Claim C3: a `do_write` call starting with empty leftovers
(`leftovers_pos == 0`) and input length `N * chunk_bytes + r` with
`0 ≤ r < chunk_bytes` enqueues exactly `N` chunks of exactly `chunk_bytes`
bytes each on the playback queue, leaves `leftovers_pos == r`, returns the
input length, and the enqueued bytes followed by the new leftovers content
equal the input bytes in order (`N = 1, r = 0` gives the one-chunk boundary
case). -/
theorem C3_do_write_chunking (chunkBytes N r : Nat) (data : List Nat)
    (hcb : 0 < chunkBytes) (hr : r < chunkBytes)
    (hlen : data.length = N * chunkBytes + r) :
    (do_write chunkBytes [] data).sent.length = N ∧
    (∀ c ∈ (do_write chunkBytes [] data).sent, c.length = chunkBytes) ∧
    (do_write chunkBytes [] data).leftovers.length = r ∧
    (do_write chunkBytes [] data).ret = data.length ∧
    (do_write chunkBytes [] data).sent.flatten ++
        (do_write chunkBytes [] data).leftovers = data := by
  have hdiv : data.length / chunkBytes = N := by
    rw [hlen, Nat.mul_comm, Nat.mul_add_div hcb, Nat.div_eq_of_lt hr,
      Nat.add_zero]
  have hmod : data.length % chunkBytes = r := by
    rw [hlen, Nat.mul_comm, Nat.mul_add_mod, Nat.mod_eq_of_lt hr]
  obtain ⟨h1, h2, h3, h4⟩ := sendFullChunks_spec chunkBytes hcb data
  unfold do_write
  by_cases hsmall : ([] : List Nat).length + data.length < chunkBytes
  · rw [if_pos hsmall]
    simp only [List.length_nil, Nat.zero_add] at hsmall
    have hN : N = 0 := by
      by_contra hN0
      have : chunkBytes ≤ N * chunkBytes :=
        Nat.le_mul_of_pos_left chunkBytes (Nat.pos_of_ne_zero hN0)
      omega
    subst hN
    refine ⟨rfl, by simp, ?_, rfl, by simp⟩
    simp only [List.nil_append, List.length_nil]
    omega
  · rw [if_neg hsmall,
      if_neg (show ¬ 0 < ([] : List Nat).length by simp)]
    exact ⟨by simpa [hdiv] using h1, h2, by simpa [hmod] using h3, rfl, h4⟩

/-- Witness for C3 at `chunk_bytes = 4`, `N = 2`, `r = 1`. -/
theorem C3_do_write_chunking_witness :
    (do_write 4 [] [1, 2, 3, 4, 5, 6, 7, 8, 9]).sent.length = 2 ∧
    (∀ c ∈ (do_write 4 [] [1, 2, 3, 4, 5, 6, 7, 8, 9]).sent,
      c.length = 4) ∧
    (do_write 4 [] [1, 2, 3, 4, 5, 6, 7, 8, 9]).leftovers.length = 1 ∧
    (do_write 4 [] [1, 2, 3, 4, 5, 6, 7, 8, 9]).ret =
      ([1, 2, 3, 4, 5, 6, 7, 8, 9] : List Nat).length ∧
    (do_write 4 [] [1, 2, 3, 4, 5, 6, 7, 8, 9]).sent.flatten ++
        (do_write 4 [] [1, 2, 3, 4, 5, 6, 7, 8, 9]).leftovers =
      [1, 2, 3, 4, 5, 6, 7, 8, 9] :=
  C3_do_write_chunking 4 2 1 [1, 2, 3, 4, 5, 6, 7, 8, 9] (by decide)
    (by decide) (by decide)

/-- The final leftovers of `readLoop` stay below `chunkBytes` provided the
initial ones do and every pending chunk is exactly `chunkBytes` long. -/
theorem readLoop_leftovers_lt (chunkBytes dataLen : Nat) :
    ∀ (queue : List (Nat × List Nat)) (out lo : List Nat)
      (exp fl dr : Nat) (r : ReadResult),
      lo.length < chunkBytes →
      (∀ p ∈ queue, (p.2 : List Nat).length = chunkBytes) →
      readLoop dataLen queue out lo exp fl dr = some r →
      r.leftovers.length < chunkBytes := by
  intro queue
  induction queue with
  | nil =>
    intro out lo exp fl dr r hlo _ hrd
    by_cases h : out.length < dataLen
    · simp [readLoop, h] at hrd
    · simp [readLoop, h, Option.some.injEq] at hrd
      rw [← hrd]
      exact hlo
  | cons head rest ih =>
    intro out lo exp fl dr r hlo hq hrd
    obtain ⟨nbr, data⟩ := head
    by_cases h : out.length < dataLen
    · simp only [readLoop, if_pos h] at hrd
      have hdata : data.length = chunkBytes := hq (nbr, data) (by simp)
      have hrest : ∀ p ∈ rest, (p.2 : List Nat).length = chunkBytes :=
        fun p hp => hq p (List.mem_cons_of_mem _ hp)
      by_cases hfit : data.length ≤ dataLen - out.length
      · rw [if_pos hfit] at hrd
        exact ih _ _ _ _ _ _ hlo hrest hrd
      · rw [if_neg hfit] at hrd
        have hlo2 : (data.drop (dataLen - out.length)).length <
            chunkBytes := by
          simp only [List.length_drop, hdata]
          omega
        exact ih _ _ _ _ _ _ hlo2 hrest hrd
    · simp [readLoop, h, Option.some.injEq] at hrd
      rw [← hrd]
      exact hlo

/-- Claim C6: `0 ≤ leftovers_pos < chunk_bytes` is an invariant of the
outer side: it is preserved by every successful `do_write` and by every
successful `do_read` whose incoming capture chunks are exactly
`chunk_bytes` long (non-negativity is inherent in the `Nat` length). -/
theorem C6_leftovers_invariant (chunkBytes : Nat) (hcb : 0 < chunkBytes) :
    (∀ (lo data : List Nat), lo.length < chunkBytes →
      (do_write chunkBytes lo data).leftovers.length < chunkBytes) ∧
    (∀ (dataLen : Nat) (lo : List Nat) (lastNbr flushed : Nat)
       (queue : List (Nat × List Nat)) (r : ReadResult),
      lo.length < chunkBytes →
      (∀ p ∈ queue, (p.2 : List Nat).length = chunkBytes) →
      do_read dataLen lo lastNbr flushed queue = some r →
      r.leftovers.length < chunkBytes) := by
  constructor
  · intro lo data hlo
    unfold do_write
    by_cases hsmall : lo.length + data.length < chunkBytes
    · rw [if_pos hsmall]
      simpa using hsmall
    · rw [if_neg hsmall]
      by_cases hpos : 0 < lo.length
      · rw [if_pos hpos]
        have := (sendFullChunks_spec chunkBytes hcb
          (data.drop (chunkBytes - lo.length))).2.2.1
        simp only [this]
        exact Nat.mod_lt _ hcb
      · rw [if_neg hpos]
        have := (sendFullChunks_spec chunkBytes hcb data).2.2.1
        simp only [this]
        exact Nat.mod_lt _ hcb
  · intro dataLen lo lastNbr flushed queue r hlo hq hrd
    unfold do_read at hrd
    by_cases hpos : 0 < lo.length
    · rw [if_pos hpos] at hrd
      by_cases hle : lo.length ≤ dataLen
      · rw [if_pos hle] at hrd
        exact readLoop_leftovers_lt chunkBytes dataLen queue lo []
          lastNbr flushed 0 r (by simpa using hcb) hq hrd
      · rw [if_neg hle] at hrd
        have hlo2 : (lo.drop dataLen).length < chunkBytes := by
          simp only [List.length_drop]
          omega
        exact readLoop_leftovers_lt chunkBytes dataLen queue
          (lo.take dataLen) (lo.drop dataLen) lastNbr flushed 0 r hlo2 hq
          hrd
    · rw [if_neg hpos] at hrd
      exact readLoop_leftovers_lt chunkBytes dataLen queue [] lo
        lastNbr flushed 0 r hlo hq hrd

/-- Witness for C6: both halves applied at `chunk_bytes = 4`. -/
theorem C6_leftovers_invariant_witness :
    (do_write 4 [1] [2]).leftovers.length < 4 ∧
    ∀ r : ReadResult, do_read 2 [1] 0 0 [(0, [5, 6, 7, 8])] = some r →
      r.leftovers.length < 4 := by
  constructor
  · exact (C6_leftovers_invariant 4 (by decide)).1 [1] [2] (by decide)
  · intro r hr
    exact (C6_leftovers_invariant 4 (by decide)).2 2 [1] 0 0
      [(0, [5, 6, 7, 8])] r (by decide) (by decide) hr

/-- Claim C7: a `do_read` whose leftovers fully satisfy the request
(`leftovers_pos ≥ len`) copies the first `len` leftover bytes to the
output, returns `len`, never touches the capture queue, leaves
`capt_last_chunk_nbr` and `capt_flushed_cnt` unchanged, logs no drop, and
keeps exactly the remaining leftover bytes (shifted to the front), so the
new `leftovers_pos` is the old one minus `len` and is cleared to 0 exactly
when they were equal. -/
theorem C7_do_read_from_leftovers (dataLen : Nat) (lo : List Nat)
    (lastNbr flushed : Nat) (queue : List (Nat × List Nat))
    (h : dataLen ≤ lo.length) :
    do_read dataLen lo lastNbr flushed queue =
      some { out := lo.take dataLen, leftovers := lo.drop dataLen,
             lastChunkNbr := lastNbr, flushedCnt := flushed,
             queue := queue, drops := 0, ret := dataLen } := by
  unfold do_read
  by_cases hpos : 0 < lo.length
  · rw [if_pos hpos]
    by_cases hle : lo.length ≤ dataLen
    · rw [if_pos hle]
      have heq : lo.length = dataLen := Nat.le_antisymm hle h
      unfold readLoop
      rw [if_neg (by omega)]
      have ht : lo.take dataLen = lo := by
        rw [← heq, List.take_length]
      have hd : lo.drop dataLen = [] := by
        rw [← heq, List.drop_length]
      rw [ht, hd]
    · rw [if_neg hle]
      unfold readLoop
      rw [if_neg (by
        simp only [List.length_take]
        omega)]
  · rw [if_neg hpos]
    have hlen : dataLen = 0 := by omega
    have hnil : lo = [] := List.eq_nil_of_length_eq_zero (by omega)
    subst hlen
    subst hnil
    unfold readLoop
    rw [if_neg (by simp)]
    simp

/-- Witness for C7 at `len = 2`, `leftovers_pos = 3`. -/
theorem C7_do_read_from_leftovers_witness :
    do_read 2 [1, 2, 3] 5 1 [(0, [9, 9])] =
      some { out := [1, 2], leftovers := [3], lastChunkNbr := 5,
             flushedCnt := 1, queue := [(0, [9, 9])], drops := 0,
             ret := 2 } := by
  have := C7_do_read_from_leftovers 2 [1, 2, 3] 5 1 [(0, [9, 9])]
    (by decide)
  simpa using this

/-- Bookkeeping of the chunk-receiving loop of `do_read`: the expected
counter never decreases, the loop consumes queue entries from the front,
`capt_flushed_cnt` is reset once any chunk is consumed, and the counter
ends exactly at `start + consumed + flushed` if and only if no sample-drop
was logged (a fast-forward strictly overshoots that value). -/
theorem readLoop_progress (dataLen : Nat) :
    ∀ (queue : List (Nat × List Nat)) (out lo : List Nat)
      (exp fl dr : Nat) (r : ReadResult),
      readLoop dataLen queue out lo exp fl dr = some r →
      r.queue.length ≤ queue.length ∧
      exp + (queue.length - r.queue.length) +
          (if queue.length = r.queue.length then 0 else fl) ≤
        r.lastChunkNbr ∧
      dr ≤ r.drops ∧
      r.flushedCnt = (if queue.length = r.queue.length then fl else 0) ∧
      (r.drops = dr ↔ r.lastChunkNbr =
        exp + (queue.length - r.queue.length) +
          (if queue.length = r.queue.length then 0 else fl)) := by
  intro queue
  induction queue with
  | nil =>
    intro out lo exp fl dr r hrd
    by_cases h : out.length < dataLen
    · simp [readLoop, h] at hrd
    · simp [readLoop, h, Option.some.injEq] at hrd
      rw [← hrd]
      simp
  | cons head rest ih =>
    intro out lo exp fl dr r hrd
    obtain ⟨nbr, data⟩ := head
    by_cases h : out.length < dataLen
    · simp only [readLoop, if_pos h] at hrd
      have main : ∀ (out2 lo2 : List Nat),
          readLoop dataLen rest out2 lo2
            (if exp + 1 + fl < nbr then nbr else exp + 1 + fl) 0
            (if exp + 1 + fl < nbr then dr + 1 else dr) = some r →
          r.queue.length ≤ ((nbr, data) :: rest).length ∧
          exp + (((nbr, data) :: rest).length - r.queue.length) +
              (if ((nbr, data) :: rest).length = r.queue.length then 0
                else fl) ≤ r.lastChunkNbr ∧
          dr ≤ r.drops ∧
          r.flushedCnt =
            (if ((nbr, data) :: rest).length = r.queue.length then fl
              else 0) ∧
          (r.drops = dr ↔ r.lastChunkNbr =
            exp + (((nbr, data) :: rest).length - r.queue.length) +
              (if ((nbr, data) :: rest).length = r.queue.length then 0
                else fl)) := by
        intro out2 lo2 hrd2
        by_cases hff : exp + 1 + fl < nbr
        · rw [if_pos hff, if_pos hff] at hrd2
          obtain ⟨ihq, ihb, ihd, ihf, ihiff⟩ :=
            ih out2 lo2 nbr 0 (dr + 1) r hrd2
          simp only [ite_self] at ihb ihf ihiff
          have hne : rest.length + 1 ≠ r.queue.length := by omega
          simp only [List.length_cons, if_neg hne]
          omega
        · rw [if_neg hff, if_neg hff] at hrd2
          obtain ⟨ihq, ihb, ihd, ihf, ihiff⟩ :=
            ih out2 lo2 (exp + 1 + fl) 0 dr r hrd2
          simp only [ite_self] at ihb ihf ihiff
          have hne : rest.length + 1 ≠ r.queue.length := by omega
          simp only [List.length_cons, if_neg hne]
          omega
      by_cases hfit : data.length ≤ dataLen - out.length
      · rw [if_pos hfit] at hrd
        exact main _ _ hrd
      · rw [if_neg hfit] at hrd
        exact main _ _ hrd
    · simp [readLoop, h, Option.some.injEq] at hrd
      rw [← hrd]
      simp

/-- Claim C4: across successful `do_read` calls `capt_last_chunk_nbr` is
monotonically non-decreasing; within a read each received chunk advances
the expected number by `1 + capt_flushed_cnt` with `capt_flushed_cnt`
reset to 0, a received `chunk_nbr` above the expected number
fast-forwards it (logging a drop), and the stored `capt_last_chunk_nbr`
is the final expected number -- so the counter ends beyond
`old + consumed + capt_flushed_cnt` exactly when a drop was logged. -/
theorem C4_chunk_counter (dataLen : Nat) (lo : List Nat)
    (lastNbr flushed : Nat) (queue : List (Nat × List Nat))
    (r : ReadResult)
    (hrd : do_read dataLen lo lastNbr flushed queue = some r) :
    lastNbr ≤ r.lastChunkNbr ∧
    r.flushedCnt = (if queue.length = r.queue.length then flushed else 0) ∧
    (r.drops = 0 ↔ r.lastChunkNbr =
      lastNbr + (queue.length - r.queue.length) +
        (if queue.length = r.queue.length then 0 else flushed)) := by
  unfold do_read at hrd
  have main : ∀ (out2 lo2 : List Nat),
      readLoop dataLen queue out2 lo2 lastNbr flushed 0 = some r →
      lastNbr ≤ r.lastChunkNbr ∧
      r.flushedCnt =
        (if queue.length = r.queue.length then flushed else 0) ∧
      (r.drops = 0 ↔ r.lastChunkNbr =
        lastNbr + (queue.length - r.queue.length) +
          (if queue.length = r.queue.length then 0 else flushed)) := by
    intro out2 lo2 h2
    obtain ⟨hq, hb, hd, hf, hiff⟩ :=
      readLoop_progress dataLen queue out2 lo2 lastNbr flushed 0 r h2
    refine ⟨?_, hf, hiff⟩
    by_cases hc : queue.length = r.queue.length <;> simp [hc] at hb <;>
      omega
  by_cases hpos : 0 < lo.length
  · rw [if_pos hpos] at hrd
    by_cases hle : lo.length ≤ dataLen
    · rw [if_pos hle] at hrd
      exact main _ _ hrd
    · rw [if_neg hle] at hrd
      exact main _ _ hrd
  · rw [if_neg hpos] at hrd
    exact main _ _ hrd

/-- Witness for C4: a read that consumes chunks 1, 2 and 4 starting from
`capt_last_chunk_nbr = 1` (the C1 scenario tail): the counter ends at 4
with no drop logged, since `4 = 1 + 3 + 0`. -/
theorem C4_chunk_counter_witness :
    do_read 6 [] 1 0 [(1, [12, 13]), (2, [14, 15]), (4, [20, 21])] =
      some { out := [12, 13, 14, 15, 20, 21], leftovers := [],
             lastChunkNbr := 4, flushedCnt := 0, queue := [], drops := 0,
             ret := 6 } ∧
    1 ≤ (4 : Nat) ∧ (0 : Nat) = 0 ∧
    ((0 : Nat) = 0 ↔ (4 : Nat) = 1 + (3 - 0) + 0) :=
  ⟨by decide,
   C4_chunk_counter 6 [] 1 0 [(1, [12, 13]), (2, [14, 15]), (4, [20, 21])]
     { out := [12, 13, 14, 15, 20, 21], leftovers := [],
       lastChunkNbr := 4, flushedCnt := 0, queue := [], drops := 0,
       ret := 6 } (by decide)⟩

/-- Counterexample to claim C1 as stated: with a capacity-3 queue, chunks
0, 1, 2 are sent, the send of chunk 3 fails with Full and its buffer is
stashed into `saved_buffer` -- but `chunk_nbr` IS incremented (to 4,
line 1279 runs unconditionally).  The stashed buffer is reused as the
read target of the next iteration, so its contents `[16, 17]` are
overwritten by the next capture `[20, 21]`, which is sent under number 4,
not resent as chunk 3.  After the outer side reads everything,
`capt_last_chunk_nbr` is 4, not 3 as the claim asserts (no drop is
logged, as the expected counter also advances by one per received
chunk). -/
theorem C1_counterexample :
    captureSendChunk 3 true [(0, [10, 11]), (1, [12, 13])]
        { chunkNbr := 2, savedBuffer := none } [14, 15] =
      some ([(0, [10, 11]), (1, [12, 13]), (2, [14, 15])],
        { chunkNbr := 3, savedBuffer := none }) ∧
    captureSendChunk 3 true [(0, [10, 11]), (1, [12, 13]), (2, [14, 15])]
        { chunkNbr := 3, savedBuffer := none } [16, 17] =
      some ([(0, [10, 11]), (1, [12, 13]), (2, [14, 15])],
        { chunkNbr := 4, savedBuffer := some [16, 17] }) ∧
    do_read 2 [] 0 0 [(0, [10, 11]), (1, [12, 13]), (2, [14, 15])] =
      some { out := [10, 11], leftovers := [], lastChunkNbr := 1,
             flushedCnt := 0, queue := [(1, [12, 13]), (2, [14, 15])],
             drops := 0, ret := 2 } ∧
    captureSendChunk 3 true [(1, [12, 13]), (2, [14, 15])]
        { chunkNbr := 4, savedBuffer := some [16, 17] } [20, 21] =
      some ([(1, [12, 13]), (2, [14, 15]), (4, [20, 21])],
        { chunkNbr := 5, savedBuffer := none }) ∧
    do_read 6 [] 1 0 [(1, [12, 13]), (2, [14, 15]), (4, [20, 21])] =
      some { out := [12, 13, 14, 15, 20, 21], leftovers := [],
             lastChunkNbr := 4, flushedCnt := 0, queue := [], drops := 0,
             ret := 6 } ∧
    (4 : Nat) ≠ 3 := by
  decide

/-- Claim C1 (amended): when the non-blocking send fails with Full the
buffer is stashed into `saved_buffer`, but `chunk_nbr` IS incremented
(`chunk_nbr += 1` runs after every completed send attempt, Ok or Full);
consequently the sequence number of the dropped chunk is skipped and the
next captured chunk -- read into the stashed buffer, overwriting it -- is
sent under the next number.  In the 0,1,2-sent/3-full scenario the outer
side ends with `capt_last_chunk_nbr = 4` (and, because the expected
counter advances by one per received chunk, no drop is logged for the
single missing number). -/
theorem C1_full_send_increments (cap : Nat)
    (queue : List (Nat × List Nat)) (st : CaptInnerState)
    (data : List Nat) :
    (cap ≤ queue.length →
      captureSendChunk cap true queue st data =
        some (queue,
          { chunkNbr := st.chunkNbr + 1, savedBuffer := some data })) ∧
    (queue.length < cap →
      captureSendChunk cap true queue st data =
        some (queue ++ [(st.chunkNbr, data)],
          { chunkNbr := st.chunkNbr + 1, savedBuffer := none })) := by
  constructor
  · intro h
    unfold captureSendChunk
    rw [if_neg (by simp), if_neg (by omega)]
  · intro h
    unfold captureSendChunk
    rw [if_neg (by simp), if_pos h]

/-- Witness for C1: the Full branch at a concrete full queue increments
`chunk_nbr` from 1 to 2 and stashes the buffer. -/
theorem C1_full_send_increments_witness :
    captureSendChunk 1 true [(0, [1])]
        { chunkNbr := 1, savedBuffer := none } [2] =
      some ([(0, [1])], { chunkNbr := 2, savedBuffer := some [2] }) :=
  (C1_full_send_increments 1 [(0, [1])]
    { chunkNbr := 1, savedBuffer := none } [2]).1 (by decide)

/-- Counterexample to claim C2 as stated: probing the formats of a
render-direction device with requested direction capture returns success
with the empty list (`Ok(vec![])`, wasapi_impl.rs line 232), not a
`DirectionMismatch` error. -/
theorem C2_counterexample :
    do_get_formats (some Direction.render) Direction.capture
        [{ validbits := 16, frame_bytes := 4, channels := 2,
           rate := 44100 }] = some [] ∧
    some ([] : List Format) ≠ (none : Option (List Format)) := by
  constructor
  · rfl
  · simp

/-- Claim C2 (amended): for every device id that resolves, whenever the
device's native direction differs from the requested direction,
`do_get_formats` returns a successful empty result (the "empty list"
error value of the host boundary), never probing the device and never
returning an error. -/
theorem C2_direction_mismatch (dev_dir dir : Direction)
    (fmts : List Format) (h : dir ≠ dev_dir) :
    do_get_formats (some dev_dir) dir fmts = some [] := by
  simp [do_get_formats, h]

/-- Witness for C2 at a concrete mismatched pair. -/
theorem C2_direction_mismatch_witness :
    do_get_formats (some Direction.render) Direction.capture
        [{ validbits := 24, frame_bytes := 8, channels := 2,
           rate := 96000 }] = some [] :=
  C2_direction_mismatch Direction.render Direction.capture
    [{ validbits := 24, frame_bytes := 8, channels := 2, rate := 96000 }]
    (by decide)

/-- Claim C5: `event_missing` returns false on every call with
`dev_time = 0`, accumulating `frame_time` exactly when `prev_dev_time` is
set and leaving `prev_dev_time` unchanged; once `prev_dev_time = prev` is
set, a non-zero call returns true iff `elapsed_frame > 0` and
`elapsed_dev > elapsed_frame + 0.5 * frame_time` (with
`elapsed_dev = dev_time - prev` and
`elapsed_frame = accumulated + frame_time`), resetting both fields on
true and storing `prev_dev_time = dev_time` with a cleared accumulator on
false. -/
theorem C5_event_missing :
    (∀ (st : DeviceTimeTracker) (ft : ℚ),
      (event_missing st 0 ft).2 = false ∧
      (event_missing st 0 ft).1.prev_dev_time = st.prev_dev_time ∧
      (event_missing st 0 ft).1.accumulated_frame_time =
        (if st.prev_dev_time.isSome then st.accumulated_frame_time + ft
          else st.accumulated_frame_time)) ∧
    (∀ (prev acc dt ft : ℚ), dt ≠ 0 →
      let st : DeviceTimeTracker :=
        { prev_dev_time := some prev, accumulated_frame_time := acc }
      ((event_missing st dt ft).2 = true ↔
        (0 < acc + ft ∧ acc + ft + ft / 2 < dt - prev)) ∧
      ((event_missing st dt ft).2 = true →
        (event_missing st dt ft).1 =
          { prev_dev_time := none, accumulated_frame_time := 0 }) ∧
      ((event_missing st dt ft).2 = false →
        (event_missing st dt ft).1 =
          { prev_dev_time := some dt, accumulated_frame_time := 0 })) := by
  constructor
  · intro st ft
    obtain ⟨p, a⟩ := st
    cases p <;> simp [event_missing]
  · intro prev acc dt ft hdt
    simp only [event_missing, if_neg hdt]
    by_cases hcond : 0 < acc + ft ∧ acc + ft + ft / 2 < dt - prev
    · simp [hcond]
    · simp [hcond]

/-- Witness for C5: a missed event at `prev = 1`, `acc = 0`,
`dev_time = 3`, `frame_time = 1` (elapsed_dev `2` exceeds
`1 + 0.5`). -/
theorem C5_event_missing_witness :
    ((event_missing
        { prev_dev_time := some 1, accumulated_frame_time := 0 } 3 1).2 =
          true ↔
      (0 < (0 : ℚ) + 1 ∧ (0 : ℚ) + 1 + 1 / 2 < 3 - 1)) ∧
    ((event_missing
        { prev_dev_time := some 1, accumulated_frame_time := 0 } 3 1).2 =
          true →
      (event_missing
        { prev_dev_time := some 1, accumulated_frame_time := 0 } 3 1).1 =
        { prev_dev_time := none, accumulated_frame_time := 0 }) ∧
    ((event_missing
        { prev_dev_time := some 1, accumulated_frame_time := 0 } 3 1).2 =
          false →
      (event_missing
        { prev_dev_time := some 1, accumulated_frame_time := 0 } 3 1).1 =
        { prev_dev_time := some 3, accumulated_frame_time := 0 }) :=
  C5_event_missing.2 1 0 3 1 (by norm_num)

/-- Claim C8: `do_get_byte_pos` with matching direction returns
`host_pos - queued_bytes` for render and `host_pos + queued_bytes` for
capture, with
`queued_bytes = pending_chunks * chunk_frames * frame_bytes +
leftovers_pos`; the arithmetic is unsigned 64-bit, so the results are
exact on the stated domains (render whenever `host_pos ≥ queued_bytes`). -/
theorem C8_get_byte_pos
    (queueLen chunkFrames frameBytes leftoversPos javaBytePos : Nat)
    (hq : queueLen * chunkFrames * frameBytes + leftoversPos < 2 ^ 64)
    (hj : javaBytePos < 2 ^ 64) :
    (queueLen * chunkFrames * frameBytes + leftoversPos ≤ javaBytePos →
      do_get_byte_pos Direction.render Direction.render queueLen
          chunkFrames frameBytes leftoversPos javaBytePos =
        some (javaBytePos -
          (queueLen * chunkFrames * frameBytes + leftoversPos))) ∧
    (javaBytePos + (queueLen * chunkFrames * frameBytes + leftoversPos) <
        2 ^ 64 →
      do_get_byte_pos Direction.capture Direction.capture queueLen
          chunkFrames frameBytes leftoversPos javaBytePos =
        some (javaBytePos +
          (queueLen * chunkFrames * frameBytes + leftoversPos))) := by
  constructor
  · intro hle
    unfold do_get_byte_pos
    rw [if_neg (by simp), if_pos rfl]
    simp only [Option.some.injEq]
    omega
  · intro hlt
    unfold do_get_byte_pos
    rw [if_neg (by simp),
      if_neg (by decide : ¬ Direction.capture = Direction.render)]
    simp only [Option.some.injEq]
    omega

/-- Witness for C8: two pending 4-frame chunks of 4-byte frames plus 3
leftover bytes against host position 1000. -/
theorem C8_get_byte_pos_witness :
    do_get_byte_pos Direction.render Direction.render 2 4 4 3 1000 =
      some 965 ∧
    do_get_byte_pos Direction.capture Direction.capture 2 4 4 3 1000 =
      some 1035 :=
  ⟨(C8_get_byte_pos 2 4 4 3 1000 (by decide) (by decide)).1 (by decide),
   (C8_get_byte_pos 2 4 4 3 1000 (by decide) (by decide)).2 (by decide)⟩

/-- Transcription of the candidate list enumerated by the spec for claim
C9, with the channel-mask table written out as literal mask values
(PortAudio layouts: mono FC; stereo FL|FR; 2.1; quad then surround; 4.1
variants; 5.1 back then side; 6.1 variants; 7.1 back then side). -/
def claimedMaskRow : Nat → List Nat
  | 1 => [4]
  | 2 => [3]
  | 3 => [11]
  | 4 => [51, 263]
  | 5 => [59, 271]
  | 6 => [63, 1551]
  | 7 => [319, 1807]
  | 8 => [255, 1599]
  | _ => []

/-- The candidate list claim C9 asserts, in its order: one extensible
candidate per mask of the table row for `channels`; the library-default
mask iff `channels > 2`; channel mask 0; a legacy candidate iff
`channels ≤ 2` and `storebits ≤ 16` -- and nothing else. -/
def claimedCandidates (defaultMask storebits validbits rate channels : Nat) :
    List WvCandidate :=
  ((claimedMaskRow channels).map fun mask =>
    { storebits := storebits, validbits := validbits, rate := rate,
      channels := channels, channelMask := mask, extensible := true }) ++
  (if 2 < channels then
    [{ storebits := storebits, validbits := validbits, rate := rate,
       channels := channels, channelMask := defaultMask,
       extensible := true }]
  else []) ++
  [{ storebits := storebits, validbits := validbits, rate := rate,
     channels := channels, channelMask := 0, extensible := true }] ++
  (if channels ≤ 2 ∧ storebits ≤ 16 then
    [{ storebits := storebits, validbits := validbits, rate := rate,
       channels := channels, channelMask := defaultMask,
       extensible := false }]
  else [])

/-- Claim C9: for every `channels ∈ [1..8]` and every
`(storebits, validbits, rate)`, the candidate list produced by
`get_possible_formats` is exactly the one the spec enumerates, in that
order. -/
theorem C9_candidate_list (channels : Nat) (h1 : 1 ≤ channels)
    (h8 : channels ≤ 8) (defaultMask storebits validbits rate : Nat) :
    get_possible_formats defaultMask storebits validbits rate channels =
      claimedCandidates defaultMask storebits validbits rate channels := by
  interval_cases channels <;> rfl

/-- Witness for C9 at `channels = 4` (quad/surround row). -/
theorem C9_candidate_list_witness :
    get_possible_formats 99 16 16 48000 4 =
      claimedCandidates 99 16 16 48000 4 :=
  C9_candidate_list 4 (by decide) (by decide) 99 16 16 48000

/-- A `(rate, channels)` pair has catalog entries exactly when it lies in
both variant lists and the acceptance predicate admits it. -/
theorem mem_init_format_variants (dm : Nat) (rates chans : List Nat)
    (accept : Nat → Nat → Bool) (r c : Nat) :
    (∃ e ∈ init_format_variants dm rates chans accept,
        e.1.rate = (r : Int) ∧ e.1.channels = (c : Int)) ↔
      (r ∈ rates ∧ c ∈ chans ∧ accept r c = true) := by
  constructor
  · rintro ⟨e, he, hr, hc⟩
    simp only [init_format_variants, List.mem_flatMap] at he
    obtain ⟨rate, hrate, ch, hch, hee⟩ := he
    by_cases ha : accept rate ch
    · rw [if_pos ha] at hee
      simp only [List.mem_map] at hee
      obtain ⟨vs, _hvs, heq⟩ := hee
      rw [← heq] at hr hc
      simp only at hr hc
      have hr2 : rate = r := by exact_mod_cast hr
      have hc2 : ch = c := by exact_mod_cast hc
      subst hr2
      subst hc2
      exact ⟨hrate, hch, ha⟩
    · rw [if_neg ha] at hee
      simp at hee
  · rintro ⟨hr, hc, ha⟩
    refine ⟨(⟨((16 : Nat) : Int), ((c * 16 / 8 : Nat) : Int), (c : Int),
        (r : Int)⟩, get_possible_formats dm 16 16 r c), ?_, rfl, rfl⟩
    simp only [init_format_variants, List.mem_flatMap]
    refine ⟨r, hr, c, hc, ?_⟩
    rw [if_pos ha]
    simp only [List.mem_map]
    exact ⟨(16, 16), (by simp [valid_store_bits_variants]), rfl⟩

/-- Claim C10 (implicit): with both limits positive, a `(rate, channels)`
combination from the variant lists gets catalog entries iff
`rate ≤ max_rate_limit` OR `channels ≤ max_channels_limit` (excluded only
when it exceeds both); with either limit non-positive every combination
from the variant lists is admitted. -/
theorem C10_rate_channels_limits :
    (∀ maxRatesLimit maxChannelsLimit : Int,
      0 < maxRatesLimit → 0 < maxChannelsLimit →
      ∀ (dm r c : Nat) (rates chans : List Nat),
      ((∃ e ∈ init_format_variants dm rates chans
            (accepted_combination maxRatesLimit maxChannelsLimit),
          e.1.rate = (r : Int) ∧ e.1.channels = (c : Int)) ↔
        (r ∈ rates ∧ c ∈ chans ∧
          (r ≤ maxRatesLimit.toNat ∨ c ≤ maxChannelsLimit.toNat)))) ∧
    (∀ maxRatesLimit maxChannelsLimit : Int,
      maxRatesLimit ≤ 0 ∨ maxChannelsLimit ≤ 0 →
      ∀ (dm r c : Nat) (rates chans : List Nat),
      ((∃ e ∈ init_format_variants dm rates chans
            (accepted_combination maxRatesLimit maxChannelsLimit),
          e.1.rate = (r : Int) ∧ e.1.channels = (c : Int)) ↔
        (r ∈ rates ∧ c ∈ chans))) := by
  constructor
  · intro mr mc hmr hmc dm r c rates chans
    rw [mem_init_format_variants]
    have hacc : accepted_combination mr mc r c =
        (decide (r ≤ mr.toNat) || decide (c ≤ mc.toNat)) := by
      simp [accepted_combination, if_pos (And.intro hmc hmr)]
    rw [hacc]
    simp
  · intro mr mc hneg dm r c rates chans
    rw [mem_init_format_variants]
    have hacc : accepted_combination mr mc r c = true := by
      unfold accepted_combination
      rw [if_neg (by omega)]
    rw [hacc]
    simp

/-- Witness for C10: with limits `(48000, 2)`, the pair `(96000, 2)` is
admitted (channels within limit) even though the rate exceeds its
limit. -/
theorem C10_rate_channels_limits_witness :
    (∃ e ∈ init_format_variants 7 [96000] [2]
          (accepted_combination 48000 2),
        e.1.rate = ((96000 : Nat) : Int) ∧
        e.1.channels = ((2 : Nat) : Int)) ↔
      ((96000 : Nat) ∈ [(96000 : Nat)] ∧ (2 : Nat) ∈ [(2 : Nat)] ∧
        ((96000 : Nat) ≤ (48000 : Int).toNat ∨
          (2 : Nat) ≤ ((2 : Int)).toNat)) :=
  C10_rate_channels_limits.1 48000 2 (by decide) (by decide) 7 96000 2
    [96000] [2]
